import Mathlib

/-
  Shallow embedding of the nftableslib rule compiler (nfrule_l3.go) and of the
  chain store (chains source file). Go pointers are modelled as Option values
  and pointer comparison as value equality; Go maps keyed by chain name are
  modelled as association lists whose insertion sites only ever add absent keys.
  Machine integers stay within small ranges here, so Nat is used directly.
-/

set_option autoImplicit false

namespace Nftableslib

/-! ## L3 rule compilation (nfrule_l3.go) -/

/-- nftables.TableFamilyIPv4 (unix.NFPROTO_IPV4). -/
def tableFamilyIPv4 : Nat := 2

/-- nftables.TableFamilyIPv6 (unix.NFPROTO_IPV6). -/
def tableFamilyIPv6 : Nat := 10

/-- net.IP is a byte slice; 4 or 16 bytes for a well-formed address. -/
abbrev IPBytes := List Nat

/-- The 12 leading bytes of an IPv4-in-IPv6 mapped address (10 zero bytes then 0xff 0xff). -/
def v4MappedFront : IPBytes := [0, 0, 0, 0, 0, 0, 0, 0, 0, 0, 255, 255]

/-- net.IP.To4: the 4-byte form of an address when it represents an IPv4
address (either 4 bytes long, or 16 bytes long with the v4-mapped front),
and nil (none) otherwise. -/
def ipTo4 (ip : IPBytes) : Option IPBytes :=
  if ip.length = 4 then some ip
  else if ip.length = 16 ∧ ip.take 12 = v4MappedFront then some (ip.drop 12)
  else none

/-- net.IP.To16: the 16-byte form of an address; 4-byte addresses are mapped
through the v4-mapped front, 16-byte addresses are returned as is, anything
else is nil (none). -/
def ipTo16 (ip : IPBytes) : Option IPBytes :=
  if ip.length = 4 then some (v4MappedFront ++ ip)
  else if ip.length = 16 then some ip
  else none

/-- nftableslib.IPAddr: an address (net.IPAddr pointer modelled by its bytes)
with the CIDR flag and optional mask length. Only the IP bytes are read by the
L3 compiler. -/
structure IPAddr where
  ip : IPBytes
  cidr : Bool
  mask : Option Nat
deriving Repr, DecidableEq

/-- nftableslib.IPAddrSpec: an address list or a two-element range (the two
range slots are nilable pointers in the source, hence Option). -/
structure IPAddrSpec where
  list : List IPAddr
  rangeLo : Option IPAddr
  rangeHi : Option IPAddr
deriving Repr, DecidableEq

/-- nftableslib.L3Rule. -/
structure L3Rule where
  src : Option IPAddrSpec
  dst : Option IPAddrSpec
  version : Option Nat
  protocol : Option Nat
deriving Repr, DecidableEq

/-- nftables set key data types (TypeInvalid zero value, TypeIPAddr, TypeIP6Addr). -/
inductive SetDatatype where
  | invalid
  | ipAddr
  | ip6Addr
deriving Repr, DecidableEq

/-- nftables.Set, reduced to the single field the L3 compiler touches. -/
structure NFSet where
  keyType : SetDatatype
deriving Repr, DecidableEq

/-- nftables.SetElement: the Key byte slice; none models the nil slice that
make() leaves in place when no family branch fills it. -/
structure SetElement where
  key : Option IPBytes
deriving Repr, DecidableEq

/-- Modelled from the spec: the expression builders getExprForSingleIP,
getExprForListIP, getExprForRangeIP and getExprForIPVersion are not among the
source files, only their call sites are. Following the spec, a single address
compiles to a direct inline comparison at the header offset, a list to a
set-membership lookup, a range to a range comparison, a version to a version
comparison; the exclude flag is a modifier on the generated instruction. -/
inductive L3Expr where
  | cmpSingleIP (l3proto offset : Nat) (addr : IPAddr) (excl : Bool)
  | lookupSet (keyType : SetDatatype) (offset : Nat) (excl : Bool)
  | cmpRange (l3proto offset : Nat) (lo hi : IPAddr) (excl : Bool)
  | cmpVersion (version : Nat) (excl : Bool)
deriving Repr, DecidableEq

/-- nftables.Rule, reduced to its expression list. -/
structure NFRule where
  exprs : List L3Expr
deriving Repr, DecidableEq

/-- Modelled from the spec: getExprForSingleIP builds the direct inline
comparison instruction for one address at the given offset. -/
def getExprForSingleIP (l3proto offset : Nat) (addr : IPAddr) (excl : Bool) :
    Except String (List L3Expr) :=
  .ok [.cmpSingleIP l3proto offset addr excl]

/-- Modelled from the spec: getExprForListIP builds the set-membership test at
the given offset against the set whose key type was chosen by createL3. -/
def getExprForListIP (l3proto : Nat) (set : NFSet) (offset : Nat) (excl : Bool) :
    Except String (List L3Expr) :=
  let _ := l3proto
  .ok [.lookupSet set.keyType offset excl]

/-- Modelled from the spec: getExprForRangeIP builds the range comparison. -/
def getExprForRangeIP (l3proto offset : Nat) (lo hi : IPAddr) (excl : Bool) :
    Except String (List L3Expr) :=
  .ok [.cmpRange l3proto offset lo hi excl]

/-- Modelled from the spec: getExprForIPVersion builds the IP version match. -/
def getExprForIPVersion (version : Nat) (excl : Bool) :
    Except String (List L3Expr) :=
  .ok [.cmpVersion version excl]

/-- processAddrList (nfrule_l3.go): one list entry avoids building SetElements
and compiles inline; otherwise one SetElement is built per entry, keys filled
by To4 under the IPv4 family and by To16 under the IPv6 family. -/
def processAddrList (l3proto offset : Nat) (list : List IPAddr) (excl : Bool)
    (set : NFSet) : Except String (NFRule × List SetElement) :=
  match list with
  | [a] =>
    match getExprForSingleIP l3proto offset a excl with
    | .error e => .error e
    | .ok expr => .ok (⟨expr⟩, [])
  | _ =>
    let setElements : List SetElement :=
      if l3proto = tableFamilyIPv4 then list.map (fun a => ⟨ipTo4 a.ip⟩)
      else if l3proto = tableFamilyIPv6 then list.map (fun a => ⟨ipTo16 a.ip⟩)
      else list.map (fun _ => ⟨none⟩)
    if setElements.length = 0 then
      .error ("unknown nftables.TableFamily " ++ toString l3proto)
    else
      match getExprForListIP l3proto set offset excl with
      | .error e => .error e
      | .ok re => .ok (⟨re⟩, setElements)

/-- processAddrRange (nfrule_l3.go). -/
def processAddrRange (l3proto offset : Nat) (lo hi : IPAddr) (excl : Bool) :
    Except String (NFRule × List SetElement) :=
  match getExprForRangeIP l3proto offset lo hi excl with
  | .error e => .error e
  | .ok re => .ok (⟨re⟩, [])

/-- processVersion (nfrule_l3.go). -/
def processVersion (version : Nat) (excl : Bool) :
    Except String (NFRule × List SetElement) :=
  match getExprForIPVersion version excl with
  | .error e => .error e
  | .ok re => .ok (⟨re⟩, [])

/-- createL3 (nfrule_l3.go). The Go function receives the rule and mutates the
set passed by pointer; here the L3 part and the Exclude flag are passed after
the nil check the callers perform, and the updated set is returned. The two
sequential if blocks on Src and Dst translate to two steps, the second
overwriting the selection of the first. -/
def createL3 (l3proto : Nat) (l3 : L3Rule) (exclude : Bool) (set : NFSet) :
    Except String (NFRule × List SetElement × NFSet) :=
  match l3.version with
  | some v =>
    match processVersion v exclude with
    | .error e => .error e
    | .ok (r, els) => .ok (r, els, set)
  | none =>
    let srcStep : Except String (Option IPAddrSpec × Nat × NFSet) :=
      match l3.src with
      | none => .ok (none, 0, set)
      | some s =>
        if l3proto = tableFamilyIPv4 then
          .ok (some s, 12, { set with keyType := .ipAddr })
        else if l3proto = tableFamilyIPv6 then
          .ok (some s, 8, { set with keyType := .ip6Addr })
        else .error ("unknown nftables.TableFamily " ++ toString l3proto)
    match srcStep with
    | .error e => .error e
    | .ok (ra0, off0, set0) =>
      let dstStep : Except String (Option IPAddrSpec × Nat × NFSet) :=
        match l3.dst with
        | none => .ok (ra0, off0, set0)
        | some d =>
          if l3proto = tableFamilyIPv4 then
            .ok (some d, 16, { set0 with keyType := .ipAddr })
          else if l3proto = tableFamilyIPv6 then
            .ok (some d, 24, { set0 with keyType := .ip6Addr })
          else .error ("unknown nftables.TableFamily " ++ toString l3proto)
      match dstStep with
      | .error e => .error e
      | .ok (ruleAddrOpt, addrOffset, set1) =>
        match ruleAddrOpt with
        | none => .error ("both source and destination are nil")
        | some ruleAddr =>
          if ruleAddr.list.length ≠ 0 then
            match processAddrList l3proto addrOffset ruleAddr.list exclude set1 with
            | .error e => .error e
            | .ok (r, els) => .ok (r, els, set1)
          else
            match ruleAddr.rangeLo, ruleAddr.rangeHi with
            | some lo, some hi =>
              match processAddrRange l3proto addrOffset lo hi exclude with
              | .error e => .error e
              | .ok (r, els) => .ok (r, els, set1)
            | _, _ => .error ("address list, address range and verdict are empry")

/-! ## Chain store (chains source file) -/

/-- nftableslib chain policy constants: ChainPolicyAccept = 1, ChainPolicyDrop = 0. -/
def chainPolicyAccept : Nat := 1

/-- nftables.ChainHookPrerouting (unix.NF_INET_PRE_ROUTING = 0), as a value. -/
def chainHookPrerouting : Nat := 0

/-- ChainDeleteTimeout (time.Second * 60), in seconds. -/
def chainDeleteTimeoutSec : Nat := 60

/-- The ticker period of the DeleteImm retry loop: ChainDeleteTimeout / 10. -/
def deleteTickSec : Nat := chainDeleteTimeoutSec / 10

/-- Number of ticker firings the retry loop can consume before the deadline
timer of ChainDeleteTimeout fires (the tick racing the timer at the deadline
instant is counted; the Go select picks either). -/
def deleteMaxTicks : Nat := chainDeleteTimeoutSec / deleteTickSec

/-- The owning nftables.Table, reduced to the two fields the chain store reads. -/
structure NFTable where
  name : String
  family : Nat
deriving Repr, DecidableEq

/-- nftables.Chain. Pointer-typed fields (Hooknum, Priority, Policy) are
modelled as Option values compared by value. ChainType is a string whose zero
value means unset. -/
structure NFTChain where
  name : String
  tableName : String
  tableFamily : Nat
  hooknum : Option Nat
  priority : Option Int
  chainType : String
  policy : Option Nat
deriving Repr, DecidableEq

/-- nftableslib.ChainAttributes. -/
structure ChainAttributes where
  type : String
  hook : Option Nat
  priority : Option Int
  device : String
  policy : Option Nat
deriving Repr, DecidableEq

/-- Modelled from the spec: newRules is not among the source files; per the
spec it constructs the chain-scoped rule-store interface for the given table
and chain. Only its identity matters to the chain store. -/
structure RulesIntf where
  tableName : String
  tableFamily : Nat
  chainName : String
deriving Repr, DecidableEq

/-- Modelled from the spec: constructor of the rule-store interface. -/
def newRules (t : NFTable) (c : NFTChain) : RulesIntf :=
  ⟨t.name, t.family, c.name⟩

/-- nfChain: the stored wrapper. The chain and rules fields are nilable
pointers in the source (isEqualChain guards both), hence Option. -/
structure NfChain where
  baseChain : Bool
  chain : Option NFTChain
  rules : Option RulesIntf
deriving Repr, DecidableEq

/-- The chains map of nfChains, modelled as an association list. All insertion
sites in the source assign only names that are absent from the map, so list
append and map assignment agree. -/
abbrev ChainStore := List (String × NfChain)

/-- Lookup in the chains map. -/
def storeLookup : ChainStore → String → Option NfChain
  | [], _ => none
  | (k, v) :: rest, name => if k = name then some v else storeLookup rest name

/-- Map assignment: replace the binding of an existing key in place, append a
fresh key at the end. -/
def storeSet : ChainStore → String → NfChain → ChainStore
  | [], name, v => [(name, v)]
  | (k, w) :: rest, name, v =>
    if k = name then (k, v) :: rest else (k, w) :: storeSet rest name v

/-- Deletion from the chains map (the Go builtin delete). -/
def storeErase (s : ChainStore) (name : String) : ChainStore :=
  s.filter (fun p => p.1 ≠ name)

/-- Number of bindings a name has in the store. -/
def storeCount : ChainStore → String → Nat
  | [], _ => 0
  | (k, _) :: rest, name =>
    (if k = name then 1 else 0) + storeCount rest name

/-- isEqualChain (chains source): attribute equivalence of a stored chain
against a creation request. -/
def isEqualChain (ch : NfChain) (attributes : Option ChainAttributes) : Bool :=
  match ch.chain with
  | none => false
  | some c =>
    match ch.rules with
    | none => false
    | some _ =>
      match attributes with
      | none => if ch.baseChain then false else true
      | some attrs =>
        if !ch.baseChain then false
        else if attrs.hook ≠ c.hooknum ∨ attrs.type ≠ c.chainType ∨
            attrs.priority ≠ c.priority then false
        else
          match attrs.policy with
          | none => true
          | some p =>
            match c.policy with
            | none => false
            | some cp => p = cp

/-- The conflict error text of create. -/
def conflictMsg (name tableName : String) : String :=
  "nftableslib: chain " ++ name ++ " already exist in table " ++ tableName

/-- create (chains source): idempotent insert. Validate only rejects an empty
base-chain type. conn.AddChain stages the chain and returns it; staging is
outside the store, so only the returned chain is kept. -/
def create (tbl : NFTable) (chains : ChainStore) (name : String)
    (attributes : Option ChainAttributes) : Option String × ChainStore :=
  match storeLookup chains name with
  | some ch =>
    if isEqualChain ch attributes then (none, chains)
    else (some (conflictMsg name tbl.name), chains)
  | none =>
    match attributes with
    | some attrs =>
      if attrs.type = "" then (some ("base chain must have type set"), chains)
      else
        let policy := attrs.policy.getD chainPolicyAccept
        let c : NFTChain :=
          ⟨name, tbl.name, tbl.family, attrs.hook, attrs.priority, attrs.type,
            some policy⟩
        (none, storeSet chains name ⟨true, some c, some (newRules tbl c)⟩)
    | none =>
      let c : NFTChain := ⟨name, tbl.name, tbl.family, none, none, "", none⟩
      (none, storeSet chains name ⟨false, some c, some (newRules tbl c)⟩)

/-- Create (chains source): create under the store lock (the lock is dropped
in this sequential model). -/
def Create (tbl : NFTable) (chains : ChainStore) (name : String)
    (attributes : Option ChainAttributes) : Option String × ChainStore :=
  create tbl chains name attributes

/-- CreateImm (chains source): create, then Flush. The outcome of the single
commit the call performs is an input here (none = success). The local entry
inserted by create stays in the store whichever way the commit goes. -/
def CreateImm (tbl : NFTable) (chains : ChainStore) (name : String)
    (attributes : Option ChainAttributes) (flushErr : Option String) :
    Option String × ChainStore :=
  match create tbl chains name attributes with
  | (some e, s) => (some e, s)
  | (none, s) =>
    match flushErr with
    | some e => (some e, s)
    | none => (none, s)

/-- Errors of the netlink connection, as the retry loop distinguishes them:
errors.Is(err, unix.EBUSY) against everything else. -/
inductive NetErr where
  | busy (msg : String)
  | other (msg : String)
deriving Repr, DecidableEq

/-- Delete (chains source): stage DelChain and drop the local entry, or fail
when the name is unknown. No commit happens here. -/
def Delete (chains : ChainStore) (name : String) : Option String × ChainStore :=
  match storeLookup chains name with
  | some _ => (none, storeErase chains name)
  | none => (some ("chain " ++ name ++ " does not exists"), chains)

/-- The DeleteImm retry loop: re-stage DelChain and Flush; stop on success or
on a non-busy error; while busy, go around once per ticker firing until the
deadline timer fires. flush gives the outcome of the attempt with the given
index, fuel the number of ticker firings left before the deadline. Returns the
error the loop ends with (none = success). -/
def deleteLoop (flush : Nat → Option NetErr) : Nat → Nat → Option NetErr
  | attempt, fuel =>
    match flush attempt with
    | none => none
    | some (.other m) => some (.other m)
    | some (.busy m) =>
      match fuel with
      | 0 => some (.busy m)
      | f + 1 => deleteLoop flush (attempt + 1) f

/-- DeleteImm (chains source): fail fast on an unknown name, then run the
retry loop; only a successful attempt removes the local entry. -/
def DeleteImm (chains : ChainStore) (name : String)
    (flush : Nat → Option NetErr) : Option NetErr × ChainStore :=
  match storeLookup chains name with
  | none => (some (.other ("chain " ++ name ++ " does not exists")), chains)
  | some _ =>
    match deleteLoop flush 0 deleteMaxTicks with
    | none => (none, storeErase chains name)
    | some e => (some e, chains)

/-- The base-vs-regular tag Sync infers for a kernel-reported chain. -/
def syncBaseChainTag (c : NFTChain) : Bool :=
  if c.chainType ≠ "" ∧ c.hooknum ≠ some chainHookPrerouting then true
  else false

/-- The loop body of Sync over the kernel listing. rulesSync gives the result
of the recursive child sync of a freshly inserted chain (modelled from the
spec: the rule-store Sync is not among the source files); an error there makes
Sync return at once, keeping what was inserted so far. -/
def syncLoop (tbl : NFTable) (rulesSync : String → Option String) :
    ChainStore → List NFTChain → Option String × ChainStore
  | chains, [] => (none, chains)
  | chains, c :: rest =>
    if c.tableName = tbl.name ∧ c.tableFamily = tbl.family then
      match storeLookup chains c.name with
      | some _ => syncLoop tbl rulesSync chains rest
      | none =>
        let chains1 := storeSet chains c.name
          ⟨syncBaseChainTag c, some c, some (newRules tbl c)⟩
        match rulesSync c.name with
        | some e => (some e, chains1)
        | none => syncLoop tbl rulesSync chains1 rest
    else syncLoop tbl rulesSync chains rest

/-- Sync (chains source): list the kernel chains (listing = the result of
conn.ListChains) and absorb the ones missing from the store. -/
def Sync (tbl : NFTable) (chains : ChainStore)
    (listing : Except String (List NFTChain))
    (rulesSync : String → Option String) : Option String × ChainStore :=
  match listing with
  | .error e => (some e, chains)
  | .ok cs => syncLoop tbl rulesSync chains cs

/-- The scan of Exist over the kernel listing: the first chain with the wanted
name and the owning table triggers Sync; a Sync failure breaks out. -/
def existScan (tbl : NFTable) (chains : ChainStore) (listing : List NFTChain)
    (rulesSync : String → Option String) (name : String) :
    List NFTChain → Bool
  | [] => false
  | c :: rest =>
    if c.name = name then
      if tbl.name = c.tableName ∧ tbl.family = c.tableFamily then
        match Sync tbl chains (.ok listing) rulesSync with
        | (none, _) => true
        | (some _, _) => false
      else existScan tbl chains listing rulesSync name rest
    else existScan tbl chains listing rulesSync name rest

/-- Exist (chains source): hit in the local store, else consult the kernel
listing; a listing error reads as absent. -/
def Exist (tbl : NFTable) (chains : ChainStore)
    (listing : Except String (List NFTChain))
    (rulesSync : String → Option String) (name : String) : Bool :=
  match storeLookup chains name with
  | some _ => true
  | none =>
    match listing with
    | .error _ => false
    | .ok cs => existScan tbl chains cs rulesSync name cs

/-! ## Store lemmas -/

theorem storeLookup_storeSet_self (s : ChainStore) (k : String) (v : NfChain) :
    storeLookup (storeSet s k v) k = some v := by
  induction s with
  | nil => simp [storeSet, storeLookup]
  | cons p rest ih =>
    obtain ⟨k0, w⟩ := p
    by_cases h : k0 = k
    · simp [storeSet, storeLookup, h]
    · simp [storeSet, storeLookup, h, ih]

theorem storeLookup_storeSet_ne (s : ChainStore) (k k2 : String) (v : NfChain)
    (h : k ≠ k2) : storeLookup (storeSet s k v) k2 = storeLookup s k2 := by
  induction s with
  | nil => simp [storeSet, storeLookup, h]
  | cons p rest ih =>
    obtain ⟨k0, w⟩ := p
    by_cases h0 : k0 = k
    · subst h0
      simp [storeSet, storeLookup, h]
    · simp [storeSet, storeLookup, h0, ih]

theorem storeCount_eq_zero_of_lookup_none (s : ChainStore) (k : String)
    (h : storeLookup s k = none) : storeCount s k = 0 := by
  induction s with
  | nil => simp [storeCount]
  | cons p rest ih =>
    obtain ⟨k0, w⟩ := p
    by_cases h0 : k0 = k
    · simp [storeLookup, h0] at h
    · simp [storeLookup, h0] at h
      simp [storeCount, h0, ih h]

theorem storeCount_storeSet_of_absent (s : ChainStore) (k : String) (v : NfChain)
    (h : storeLookup s k = none) : storeCount (storeSet s k v) k = 1 := by
  induction s with
  | nil => simp [storeSet, storeCount]
  | cons p rest ih =>
    obtain ⟨k0, w⟩ := p
    by_cases h0 : k0 = k
    · simp [storeLookup, h0] at h
    · simp [storeLookup, h0] at h
      simp [storeSet, storeCount, h0, ih h]

theorem storeCount_storeSet_ne (s : ChainStore) (k k2 : String) (v : NfChain)
    (h : k ≠ k2) : storeCount (storeSet s k v) k2 = storeCount s k2 := by
  induction s with
  | nil => simp [storeSet, storeCount, h]
  | cons p rest ih =>
    obtain ⟨k0, w⟩ := p
    by_cases h0 : k0 = k
    · subst h0
      simp [storeSet, storeCount, h]
    · simp [storeSet, storeCount, h0, ih]

/-! ## C3: Create idempotence and conflict -/

/-- Validate (chains source) succeeds: a base-chain request must carry a type. -/
def attrsValid : Option ChainAttributes → Prop
  | none => True
  | some a => a.type ≠ ""

/-- The wrapper create inserts for a base-chain request. -/
def createdBase (tbl : NFTable) (name : String) (a : ChainAttributes) : NfChain :=
  let c : NFTChain :=
    ⟨name, tbl.name, tbl.family, a.hook, a.priority, a.type,
      some (a.policy.getD chainPolicyAccept)⟩
  ⟨true, some c, some (newRules tbl c)⟩

/-- The wrapper create inserts for a regular-chain request. -/
def createdRegular (tbl : NFTable) (name : String) : NfChain :=
  let c : NFTChain := ⟨name, tbl.name, tbl.family, none, none, "", none⟩
  ⟨false, some c, some (newRules tbl c)⟩

theorem isEqualChain_createdBase (tbl : NFTable) (name : String)
    (a : ChainAttributes) : isEqualChain (createdBase tbl name a) (some a) = true := by
  simp [isEqualChain, createdBase]
  match hp : a.policy with
  | none => simp
  | some p => simp [Option.getD]

theorem isEqualChain_createdRegular (tbl : NFTable) (name : String) :
    isEqualChain (createdRegular tbl name) none = true := by
  simp [isEqualChain, createdRegular]

/-- C3: Calling Create(name, attrs) on a chain store twice with identical
attrs succeeds both times and leaves exactly one stored object for that name;
calling it a second time with differing attrs returns a conflict error and
leaves the originally stored object unchanged; attribute equivalence requires
the base/regular tag to match and, for base chains, hook, type, priority and
policy to match. -/
theorem create_idempotent_and_conflict (tbl : NFTable) (s : ChainStore)
    (name : String) (attrs : Option ChainAttributes)
    (habs : storeLookup s name = none) (hval : attrsValid attrs) :
    ∃ s1, Create tbl s name attrs = (none, s1) ∧
      storeCount s1 name = 1 ∧
      Create tbl s1 name attrs = (none, s1) ∧
      (∀ attrs2, (∀ ch, storeLookup s1 name = some ch →
          isEqualChain ch attrs2 = false) →
        Create tbl s1 name attrs2 = (some (conflictMsg name tbl.name), s1)) ∧
      (∀ ch attrs2, isEqualChain ch attrs2 = true →
        (attrs2 = none → ch.baseChain = false) ∧
        (∀ a, attrs2 = some a → ch.baseChain = true ∧
          ∃ c, ch.chain = some c ∧ a.hook = c.hooknum ∧
            a.type = c.chainType ∧ a.priority = c.priority ∧
            ∀ p, a.policy = some p → c.policy = some p)) := by
  have characterization : ∀ ch attrs2, isEqualChain ch attrs2 = true →
      (attrs2 = none → ch.baseChain = false) ∧
      (∀ a, attrs2 = some a → ch.baseChain = true ∧
        ∃ c, ch.chain = some c ∧ a.hook = c.hooknum ∧
          a.type = c.chainType ∧ a.priority = c.priority ∧
          ∀ p, a.policy = some p → c.policy = some p) := by
    intro ch attrs2 heq
    match hc : ch.chain with
    | none => simp [isEqualChain, hc] at heq
    | some c =>
      match hr : ch.rules with
      | none => simp [isEqualChain, hc, hr] at heq
      | some r =>
        match attrs2 with
        | none =>
          simp [isEqualChain, hc, hr] at heq
          exact ⟨fun _ => heq, fun a ha => Option.noConfusion ha⟩
        | some a =>
          simp [isEqualChain, hc, hr] at heq
          obtain ⟨hbase, ⟨h1, h2, h3⟩, hpol⟩ := heq
          refine ⟨fun h => Option.noConfusion h, fun a2 ha2 => ?_⟩
          cases ha2
          refine ⟨hbase, c, rfl, h1, h2, h3, fun p hp => ?_⟩
          rw [hp] at hpol
          match hcp : c.policy with
          | none => rw [hcp] at hpol; simp at hpol
          | some cp =>
            rw [hcp] at hpol
            simp at hpol
            rw [hpol]
  match attrs with
  | some a =>
    have hty : a.type ≠ "" := hval
    refine ⟨storeSet s name (createdBase tbl name a), ?_, ?_, ?_, ?_,
      characterization⟩
    · simp [Create, create, habs, hty, createdBase]
    · exact storeCount_storeSet_of_absent s name _ habs
    · have hl := storeLookup_storeSet_self s name (createdBase tbl name a)
      simp [Create, create, hl, isEqualChain_createdBase]
    · intro attrs2 hne
      have hl := storeLookup_storeSet_self s name (createdBase tbl name a)
      have hfalse := hne _ hl
      simp [Create, create, hl, hfalse]
  | none =>
    refine ⟨storeSet s name (createdRegular tbl name), ?_, ?_, ?_, ?_,
      characterization⟩
    · simp [Create, create, habs, createdRegular]
    · exact storeCount_storeSet_of_absent s name _ habs
    · have hl := storeLookup_storeSet_self s name (createdRegular tbl name)
      simp [Create, create, hl, isEqualChain_createdRegular]
    · intro attrs2 hne
      have hl := storeLookup_storeSet_self s name (createdRegular tbl name)
      have hfalse := hne _ hl
      simp [Create, create, hl, hfalse]

/-- Demo table for concrete witnesses. -/
def tblDemo : NFTable := ⟨"filter", tableFamilyIPv4⟩

/-- Demo base-chain attributes for concrete witnesses. -/
def attrsDemo : ChainAttributes := ⟨"filter", some 1, some (-400), "", none⟩

/-- Witness for C3 at a concrete store and attributes. -/
theorem create_idempotent_and_conflict_witness :
    ∃ s1, Create tblDemo [] "ch1" (some attrsDemo) = (none, s1) ∧
      storeCount s1 "ch1" = 1 ∧
      Create tblDemo s1 "ch1" (some attrsDemo) = (none, s1) ∧
      (∀ attrs2, (∀ ch, storeLookup s1 "ch1" = some ch →
          isEqualChain ch attrs2 = false) →
        Create tblDemo s1 "ch1" attrs2 =
          (some (conflictMsg "ch1" tblDemo.name), s1)) ∧
      (∀ ch attrs2, isEqualChain ch attrs2 = true →
        (attrs2 = none → ch.baseChain = false) ∧
        (∀ a, attrs2 = some a → ch.baseChain = true ∧
          ∃ c, ch.chain = some c ∧ a.hook = c.hooknum ∧
            a.type = c.chainType ∧ a.priority = c.priority ∧
            ∀ p, a.policy = some p → c.policy = some p)) :=
  create_idempotent_and_conflict tblDemo [] "ch1" (some attrsDemo) rfl
    (by simp [attrsValid, attrsDemo])

/-! ## C4, C5: the DeleteImm retry loop and the store effect of deletes -/

theorem deleteLoop_flush_ok (flush : Nat → Option NetErr) (att fuel : Nat)
    (hm : flush att = none) : deleteLoop flush att fuel = none := by
  rw [deleteLoop]
  simp [hm]

theorem deleteLoop_flush_other (flush : Nat → Option NetErr) (att fuel : Nat)
    (e : String) (hm : flush att = some (.other e)) :
    deleteLoop flush att fuel = some (.other e) := by
  rw [deleteLoop]
  simp [hm]

theorem deleteLoop_busy_zero (flush : Nat → Option NetErr) (att : Nat)
    (m : String) (hm : flush att = some (.busy m)) :
    deleteLoop flush att 0 = some (.busy m) := by
  rw [deleteLoop]
  simp [hm]

theorem deleteLoop_busy_step (flush : Nat → Option NetErr) (att f : Nat)
    (m : String) (hm : flush att = some (.busy m)) :
    deleteLoop flush att (f + 1) = deleteLoop flush (att + 1) f := by
  rw [deleteLoop]
  simp [hm]

theorem deleteLoop_ok (flush : Nat → Option NetErr) :
    ∀ (k att fuel : Nat), k ≤ fuel →
    (∀ j, j < k → ∃ m, flush (att + j) = some (.busy m)) →
    flush (att + k) = none →
    deleteLoop flush att fuel = none := by
  intro k
  induction k with
  | zero =>
    intro att fuel _ _ hnone
    simp only [Nat.add_zero] at hnone
    exact deleteLoop_flush_ok flush att fuel hnone
  | succ k ih =>
    intro att fuel hk hbusy hnone
    match fuel with
    | 0 => omega
    | f + 1 =>
      obtain ⟨m, hm⟩ := hbusy 0 (by omega)
      simp only [Nat.add_zero] at hm
      have hstep := deleteLoop_busy_step flush att f m hm
      rw [hstep]
      refine ih (att + 1) f (by omega) ?_ ?_
      · intro j hj
        have := hbusy (j + 1) (by omega)
        simpa [Nat.add_assoc, Nat.add_comm 1 j] using this
      · have h1 : att + 1 + k = att + (k + 1) := by omega
        rw [h1]
        exact hnone

theorem deleteLoop_first_other (flush : Nat → Option NetErr) (e : String) :
    ∀ (k att fuel : Nat), k ≤ fuel →
    (∀ j, j < k → ∃ m, flush (att + j) = some (.busy m)) →
    flush (att + k) = some (.other e) →
    deleteLoop flush att fuel = some (.other e) := by
  intro k
  induction k with
  | zero =>
    intro att fuel _ _ hoth
    simp only [Nat.add_zero] at hoth
    exact deleteLoop_flush_other flush att fuel e hoth
  | succ k ih =>
    intro att fuel hk hbusy hoth
    match fuel with
    | 0 => omega
    | f + 1 =>
      obtain ⟨m, hm⟩ := hbusy 0 (by omega)
      simp only [Nat.add_zero] at hm
      have hstep := deleteLoop_busy_step flush att f m hm
      rw [hstep]
      refine ih (att + 1) f (by omega) ?_ ?_
      · intro j hj
        have := hbusy (j + 1) (by omega)
        simpa [Nat.add_assoc, Nat.add_comm 1 j] using this
      · have h1 : att + 1 + k = att + (k + 1) := by omega
        rw [h1]
        exact hoth

theorem deleteLoop_all_busy (flush : Nat → Option NetErr) :
    ∀ (fuel att : Nat),
    (∀ j, j ≤ fuel → ∃ m, flush (att + j) = some (.busy m)) →
    ∃ m, flush (att + fuel) = some (.busy m) ∧
      deleteLoop flush att fuel = some (.busy m) := by
  intro fuel
  induction fuel with
  | zero =>
    intro att hbusy
    obtain ⟨m, hm⟩ := hbusy 0 (by omega)
    simp only [Nat.add_zero] at hm ⊢
    exact ⟨m, hm, deleteLoop_busy_zero flush att m hm⟩
  | succ f ih =>
    intro att hbusy
    obtain ⟨m, hm⟩ := hbusy 0 (by omega)
    simp only [Nat.add_zero] at hm
    have hstep := deleteLoop_busy_step flush att f m hm
    have hshift : ∀ j, j ≤ f → ∃ m2, flush (att + 1 + j) = some (.busy m2) := by
      intro j hj
      have := hbusy (j + 1) (by omega)
      simpa [Nat.add_assoc, Nat.add_comm 1 j] using this
    obtain ⟨m2, hm2, hrun⟩ := ih (att + 1) hshift
    refine ⟨m2, ?_, by rw [hstep]; exact hrun⟩
    have h1 : att + 1 + f = att + (f + 1) := by omega
    rw [h1] at hm2
    exact hm2

/-- C4: DeleteImm re-issues the kernel delete only while the commit error is
the busy condition, under the fixed cadence ChainDeleteTimeout / 10 and fixed
deadline ChainDeleteTimeout of 60 seconds: a flush that succeeds within the
attempt budget returns nil, a non-busy error is returned at once, and when
every attempt up to the deadline stays busy the last observed busy error is
returned instead of looping on. -/
theorem deleteImm_retry_policy (s : ChainStore) (name : String) (ch : NfChain)
    (flush : Nat → Option NetErr) (hname : storeLookup s name = some ch) :
    (∀ k, k ≤ deleteMaxTicks →
      (∀ j, j < k → ∃ m, flush j = some (.busy m)) → flush k = none →
      DeleteImm s name flush = (none, storeErase s name)) ∧
    (∀ k e, k ≤ deleteMaxTicks →
      (∀ j, j < k → ∃ m, flush j = some (.busy m)) →
      flush k = some (.other e) →
      DeleteImm s name flush = (some (.other e), s)) ∧
    ((∀ j, j ≤ deleteMaxTicks → ∃ m, flush j = some (.busy m)) →
      ∃ m, flush deleteMaxTicks = some (.busy m) ∧
        DeleteImm s name flush = (some (.busy m), s)) ∧
    deleteTickSec = chainDeleteTimeoutSec / 10 ∧
    chainDeleteTimeoutSec = 60 ∧ deleteMaxTicks = 10 := by
  refine ⟨?_, ?_, ?_, rfl, rfl, rfl⟩
  · intro k hk hbusy hnone
    have hrun := deleteLoop_ok flush k 0 deleteMaxTicks hk
      (by intro j hj; simpa using hbusy j hj) (by simpa using hnone)
    simp [DeleteImm, hname, hrun]
  · intro k e hk hbusy hoth
    have hrun := deleteLoop_first_other flush e k 0 deleteMaxTicks hk
      (by intro j hj; simpa using hbusy j hj) (by simpa using hoth)
    simp [DeleteImm, hname, hrun]
  · intro hbusy
    obtain ⟨m, hm, hrun⟩ := deleteLoop_all_busy flush deleteMaxTicks 0
      (by intro j hj; simpa using hbusy j hj)
    simp only [Nat.zero_add] at hm
    exact ⟨m, hm, by simp [DeleteImm, hname, hrun]⟩

/-- A regular demo chain wrapper used by concrete inputs. -/
def chDemo : NfChain := createdRegular tblDemo "ch1"

/-- A demo store holding the demo chain. -/
def storeDemo : ChainStore := [("ch1", chDemo)]

/-- A flush sequence that reports busy twice and then succeeds. -/
def flushDemo : Nat → Option NetErr :=
  fun n => if n < 2 then some (.busy "resource busy") else none

/-- Witness for C4: two busy attempts then success, within the deadline. -/
theorem deleteImm_retry_policy_witness :
    DeleteImm storeDemo "ch1" flushDemo = (none, storeErase storeDemo "ch1") := by
  refine (deleteImm_retry_policy storeDemo "ch1" chDemo flushDemo rfl).1 2
    (by decide) ?_ rfl
  intro j hj
  interval_cases j
  · exact ⟨"resource busy", rfl⟩
  · exact ⟨"resource busy", rfl⟩

/-- A flush sequence that stays busy forever. -/
def flushAllBusy : Nat → Option NetErr := fun _ => some (.busy "device busy")

/-- Counterexample to C5: a DeleteImm that stays busy past the deadline
returns the busy error while the chain is still present in the local store —
the object is not absent by the time the call returns. -/
theorem deleteImm_entry_survives_cex :
    DeleteImm storeDemo "ch1" flushAllBusy =
      (some (.busy "device busy"), storeDemo) ∧
    storeLookup (DeleteImm storeDemo "ch1" flushAllBusy).2 "ch1" =
      some chDemo := by
  exact ⟨rfl, rfl⟩

/-- C5 amended: Delete always drops the entry of a present name; DeleteImm
drops the entry exactly when the kernel delete succeeds within the deadline,
and on failure (non-busy error or busy past the deadline) the entry remains in
the local store when the call returns. -/
theorem delete_store_effect (s : ChainStore) (name : String) (ch : NfChain)
    (hname : storeLookup s name = some ch) :
    Delete s name = (none, storeErase s name) ∧
    (∀ flush, deleteLoop flush 0 deleteMaxTicks = none →
      DeleteImm s name flush = (none, storeErase s name)) ∧
    (∀ flush e, deleteLoop flush 0 deleteMaxTicks = some e →
      DeleteImm s name flush = (some e, s) ∧
        storeLookup (DeleteImm s name flush).2 name = some ch) := by
  refine ⟨by simp [Delete, hname], fun flush h => by simp [DeleteImm, hname, h],
    fun flush e h => ?_⟩
  have hres : DeleteImm s name flush = (some e, s) := by
    simp [DeleteImm, hname, h]
  exact ⟨hres, by rw [hres]; exact hname⟩

/-- Witness for the amended C5 at a concrete store and flush sequences. -/
theorem delete_store_effect_witness :
    Delete storeDemo "ch1" = (none, storeErase storeDemo "ch1") ∧
    DeleteImm storeDemo "ch1" (fun _ => none) =
      (none, storeErase storeDemo "ch1") ∧
    DeleteImm storeDemo "ch1" flushAllBusy =
      (some (.busy "device busy"), storeDemo) := by
  have h := delete_store_effect storeDemo "ch1" chDemo rfl
  exact ⟨h.1, h.2.1 (fun _ => none) rfl,
    (h.2.2 flushAllBusy (.busy "device busy") rfl).1⟩

/-! ## C6, C7: Sync reconciliation -/

theorem syncLoop_preserves (tbl : NFTable) (rulesSync : String → Option String) :
    ∀ (ks : List NFTChain) (s : ChainStore) (name : String) (v : NfChain),
    storeLookup s name = some v →
    storeLookup (syncLoop tbl rulesSync s ks).2 name = some v := by
  intro ks
  induction ks with
  | nil =>
    intro s name v h
    simpa [syncLoop] using h
  | cons c rest ih =>
    intro s name v h
    by_cases hmatch : c.tableName = tbl.name ∧ c.tableFamily = tbl.family
    · match hlk : storeLookup s c.name with
      | some w =>
        simp only [syncLoop, hmatch, and_self, if_true, hlk]
        exact ih s name v h
      | none =>
        have hne : c.name ≠ name := by
          intro heq
          rw [heq, h] at hlk
          exact Option.noConfusion hlk
        have h1 : storeLookup
            (storeSet s c.name ⟨syncBaseChainTag c, some c, some (newRules tbl c)⟩)
            name = some v := by
          rw [storeLookup_storeSet_ne s c.name name _ hne]
          exact h
        match hrs : rulesSync c.name with
        | some e =>
          simp only [syncLoop, hmatch, and_self, if_true, hlk, hrs]
          exact h1
        | none =>
          simp only [syncLoop, hmatch, and_self, if_true, hlk, hrs]
          exact ih _ name v h1
    · simp only [syncLoop, hmatch, if_false]
      exact ih s name v h

theorem syncLoop_count_preserved (tbl : NFTable)
    (rulesSync : String → Option String) :
    ∀ (ks : List NFTChain) (s : ChainStore) (name : String),
    (storeLookup s name).isSome = true →
    storeCount (syncLoop tbl rulesSync s ks).2 name = storeCount s name := by
  intro ks
  induction ks with
  | nil =>
    intro s name _
    simp [syncLoop]
  | cons c rest ih =>
    intro s name h
    by_cases hmatch : c.tableName = tbl.name ∧ c.tableFamily = tbl.family
    · match hlk : storeLookup s c.name with
      | some w =>
        simp only [syncLoop, hmatch, and_self, if_true, hlk]
        exact ih s name h
      | none =>
        have hne : c.name ≠ name := by
          intro heq
          rw [heq] at hlk
          rw [hlk] at h
          simp at h
        have hcnt := storeCount_storeSet_ne s c.name name
          ⟨syncBaseChainTag c, some c, some (newRules tbl c)⟩ hne
        have hpres : (storeLookup
            (storeSet s c.name ⟨syncBaseChainTag c, some c, some (newRules tbl c)⟩)
            name).isSome = true := by
          rw [storeLookup_storeSet_ne s c.name name _ hne]
          exact h
        match hrs : rulesSync c.name with
        | some e =>
          simp only [syncLoop, hmatch, and_self, if_true, hlk, hrs]
          exact hcnt
        | none =>
          simp only [syncLoop, hmatch, and_self, if_true, hlk, hrs]
          rw [ih _ name hpres]
          exact hcnt
    · simp only [syncLoop, hmatch, if_false]
      exact ih s name h

theorem syncLoop_adds (tbl : NFTable) (rulesSync : String → Option String) :
    ∀ (ks : List NFTChain) (s : ChainStore),
    (∀ c, c ∈ ks → rulesSync c.name = none) →
    ∀ c, c ∈ ks → c.tableName = tbl.name → c.tableFamily = tbl.family →
    (storeLookup (syncLoop tbl rulesSync s ks).2 c.name).isSome = true := by
  intro ks
  induction ks with
  | nil =>
    intro s _ c hc
    exact absurd hc (List.not_mem_nil c)
  | cons c0 rest ih =>
    intro s hall c hc hcn hcf
    have hall2 : ∀ c2, c2 ∈ rest → rulesSync c2.name = none :=
      fun c2 h2 => hall c2 (List.mem_cons_of_mem c0 h2)
    rcases List.mem_cons.mp hc with hceq | hcrest
    · subst hceq
      have hmatch : c.tableName = tbl.name ∧ c.tableFamily = tbl.family :=
        ⟨hcn, hcf⟩
      match hlk : storeLookup s c.name with
      | some w =>
        simp only [syncLoop, hmatch, and_self, if_true, hlk]
        rw [syncLoop_preserves tbl rulesSync rest s c.name w hlk]
        rfl
      | none =>
        have hrs := hall c (List.mem_cons_self c rest)
        simp only [syncLoop, hmatch, and_self, if_true, hlk, hrs]
        have h1 := storeLookup_storeSet_self s c.name
          ⟨syncBaseChainTag c, some c, some (newRules tbl c)⟩
        rw [syncLoop_preserves tbl rulesSync rest _ c.name _ h1]
        rfl
    · by_cases hmatch : c0.tableName = tbl.name ∧ c0.tableFamily = tbl.family
      · match hlk : storeLookup s c0.name with
        | some w =>
          simp only [syncLoop, hmatch, and_self, if_true, hlk]
          exact ih s hall2 c hcrest hcn hcf
        | none =>
          have hrs := hall c0 (List.mem_cons_self c0 rest)
          simp only [syncLoop, hmatch, and_self, if_true, hlk, hrs]
          exact ih _ hall2 c hcrest hcn hcf
      · simp only [syncLoop, hmatch, if_false]
        exact ih s hall2 c hcrest hcn hcf

theorem syncLoop_new_entries (tbl : NFTable) (rulesSync : String → Option String) :
    ∀ (ks : List NFTChain) (s : ChainStore) (name : String) (ch : NfChain),
    storeLookup (syncLoop tbl rulesSync s ks).2 name = some ch →
    storeLookup s name = some ch ∨
      ∃ c, c ∈ ks ∧ c.name = name ∧ c.tableName = tbl.name ∧
        c.tableFamily = tbl.family ∧
        ch = ⟨syncBaseChainTag c, some c, some (newRules tbl c)⟩ := by
  intro ks
  induction ks with
  | nil =>
    intro s name ch h
    simp only [syncLoop] at h
    exact Or.inl h
  | cons c0 rest ih =>
    intro s name ch h
    by_cases hmatch : c0.tableName = tbl.name ∧ c0.tableFamily = tbl.family
    · match hlk : storeLookup s c0.name with
      | some w =>
        simp only [syncLoop, hmatch, and_self, if_true, hlk] at h
        rcases ih s name ch h with hl | ⟨c2, hc2, hrest⟩
        · exact Or.inl hl
        · exact Or.inr ⟨c2, List.mem_cons_of_mem c0 hc2, hrest⟩
      | none =>
        have hsplit : storeLookup
            (storeSet s c0.name
              ⟨syncBaseChainTag c0, some c0, some (newRules tbl c0)⟩) name =
            some ch →
            storeLookup s name = some ch ∨
            ∃ c, c ∈ c0 :: rest ∧ c.name = name ∧ c.tableName = tbl.name ∧
              c.tableFamily = tbl.family ∧
              ch = ⟨syncBaseChainTag c, some c, some (newRules tbl c)⟩ := by
          intro h1
          by_cases hne : c0.name = name
          · subst hne
            rw [storeLookup_storeSet_self] at h1
            exact Or.inr ⟨c0, List.mem_cons_self c0 rest, rfl, hmatch.1,
              hmatch.2, (Option.some_inj.mp h1).symm⟩
          · rw [storeLookup_storeSet_ne s c0.name name _ hne] at h1
            exact Or.inl h1
        match hrs : rulesSync c0.name with
        | some e =>
          simp only [syncLoop, hmatch, and_self, if_true, hlk, hrs] at h
          exact hsplit h
        | none =>
          simp only [syncLoop, hmatch, and_self, if_true, hlk, hrs] at h
          rcases ih _ name ch h with hl | ⟨c2, hc2, hrest⟩
          · exact hsplit hl
          · exact Or.inr ⟨c2, List.mem_cons_of_mem c0 hc2, hrest⟩
    · simp only [syncLoop, hmatch, if_false] at h
      rcases ih s name ch h with hl | ⟨c2, hc2, hrest⟩
      · exact Or.inl hl
      · exact Or.inr ⟨c2, List.mem_cons_of_mem c0 hc2, hrest⟩

/-- C6: Sync is one-directional: entries already present in the local store
survive unchanged (same binding, same multiplicity — never removed, replaced,
duplicated or modified, also when absent from the kernel listing), and, when
the child rule-store syncs succeed, every kernel chain of the owning table
whose name is missing locally gains a local entry. -/
theorem sync_one_directional (tbl : NFTable) (s : ChainStore)
    (kchains : List NFTChain) (rulesSync : String → Option String) :
    (∀ name v, storeLookup s name = some v →
      storeLookup (Sync tbl s (.ok kchains) rulesSync).2 name = some v) ∧
    (∀ name, (storeLookup s name).isSome = true →
      storeCount (Sync tbl s (.ok kchains) rulesSync).2 name =
        storeCount s name) ∧
    ((∀ c, c ∈ kchains → rulesSync c.name = none) →
      ∀ c, c ∈ kchains → c.tableName = tbl.name → c.tableFamily = tbl.family →
        (storeLookup (Sync tbl s (.ok kchains) rulesSync).2 c.name).isSome =
          true) := by
  refine ⟨?_, ?_, ?_⟩
  · intro name v h
    exact syncLoop_preserves tbl rulesSync kchains s name v h
  · intro name h
    exact syncLoop_count_preserved tbl rulesSync kchains s name h
  · intro hall c hc hcn hcf
    exact syncLoop_adds tbl rulesSync kchains s hall c hc hcn hcf

/-- A regular demo wrapper stored under the name A. -/
def chDemoA : NfChain := createdRegular tblDemo "A"

/-- A kernel-reported regular chain named A in the demo table. -/
def kcA : NFTChain := ⟨"A", "filter", 2, none, none, "", none⟩

/-- A kernel-reported base chain named B in the demo table. -/
def kcB : NFTChain := ⟨"B", "filter", 2, some 1, some 0, "filter", some 1⟩

/-- Witness for C6: local A survives a Sync against the listing containing A
and B, and B is absorbed. -/
theorem sync_one_directional_witness :
    storeLookup (Sync tblDemo [("A", chDemoA)] (.ok [kcA, kcB])
      (fun _ => none)).2 "A" = some chDemoA ∧
    storeCount (Sync tblDemo [("A", chDemoA)] (.ok [kcA, kcB])
      (fun _ => none)).2 "A" = storeCount [("A", chDemoA)] "A" ∧
    (storeLookup (Sync tblDemo [("A", chDemoA)] (.ok [kcA, kcB])
      (fun _ => none)).2 "B").isSome = true := by
  have h := sync_one_directional tblDemo [("A", chDemoA)] [kcA, kcB]
    (fun _ => none)
  refine ⟨h.1 "A" chDemoA rfl, h.2.1 "A" rfl, ?_⟩
  refine h.2.2 (fun c _ => rfl) kcB ?_ rfl rfl
  simp

/-- A kernel-reported chain carrying a chain type and the prerouting hook. -/
def kcPre : NFTChain :=
  ⟨"pre", "filter", 2, some chainHookPrerouting, some 0, "filter", some 1⟩

/-- Counterexample to C7: a kernel chain carrying a chain type (and the
prerouting hook) is inserted by Sync tagged regular (baseChain = false), not
base as the claim states for every hook value. -/
theorem sync_base_tag_cex :
    kcPre.chainType = "filter" ∧ kcPre.hooknum = some chainHookPrerouting ∧
    storeLookup (Sync tblDemo [] (.ok [kcPre]) (fun _ => none)).2 "pre" =
      some ⟨false, some kcPre, some (newRules tblDemo kcPre)⟩ :=
  ⟨rfl, rfl, rfl⟩

/-- C7 amended: during Sync, a kernel chain absent from the local store is
inserted with the base tag true exactly when it carries a chain type and its
hook is not the prerouting hook (value 0); a typed chain hooked at prerouting
is tagged regular. Every entry of the resulting store is either an old local
entry or such an inserted wrapper. -/
theorem sync_infers_base_tag (tbl : NFTable) (rulesSync : String → Option String)
    (s : ChainStore) (c : NFTChain) (rest : List NFTChain)
    (hname : c.tableName = tbl.name) (hfam : c.tableFamily = tbl.family)
    (habs : storeLookup s c.name = none) :
    storeLookup (Sync tbl s (.ok (c :: rest)) rulesSync).2 c.name =
      some ⟨syncBaseChainTag c, some c, some (newRules tbl c)⟩ ∧
    (syncBaseChainTag c = true ↔
      (c.chainType ≠ "" ∧ c.hooknum ≠ some chainHookPrerouting)) ∧
    (∀ name ch,
      storeLookup (Sync tbl s (.ok (c :: rest)) rulesSync).2 name = some ch →
      storeLookup s name = some ch ∨
      ∃ c2, c2 ∈ c :: rest ∧ c2.name = name ∧ c2.tableName = tbl.name ∧
        c2.tableFamily = tbl.family ∧
        ch = ⟨syncBaseChainTag c2, some c2, some (newRules tbl c2)⟩) := by
  have hmatch : c.tableName = tbl.name ∧ c.tableFamily = tbl.family :=
    ⟨hname, hfam⟩
  refine ⟨?_, ?_, ?_⟩
  · have h1 := storeLookup_storeSet_self s c.name
      ⟨syncBaseChainTag c, some c, some (newRules tbl c)⟩
    match hrs : rulesSync c.name with
    | some e =>
      simp only [Sync, syncLoop, hmatch, and_self, if_true, habs, hrs]
      exact h1
    | none =>
      simp only [Sync, syncLoop, hmatch, and_self, if_true, habs, hrs]
      exact syncLoop_preserves tbl rulesSync rest _ c.name _ h1
  · unfold syncBaseChainTag
    by_cases h : c.chainType ≠ "" ∧ c.hooknum ≠ some chainHookPrerouting
    · simp [h]
    · simp [h]
  · intro name ch h
    exact syncLoop_new_entries tbl rulesSync (c :: rest) s name ch h

/-- Witness for the amended C7 at a concrete prerouting-hooked typed chain. -/
theorem sync_infers_base_tag_witness :
    storeLookup (Sync tblDemo [] (.ok [kcPre]) (fun _ => none)).2 "pre" =
      some ⟨syncBaseChainTag kcPre, some kcPre, some (newRules tblDemo kcPre)⟩ ∧
    (syncBaseChainTag kcPre = true ↔
      (kcPre.chainType ≠ "" ∧ kcPre.hooknum ≠ some chainHookPrerouting)) ∧
    (∀ name ch,
      storeLookup (Sync tblDemo [] (.ok [kcPre]) (fun _ => none)).2 name =
        some ch →
      storeLookup ([] : ChainStore) name = some ch ∨
      ∃ c2, c2 ∈ [kcPre] ∧ c2.name = name ∧ c2.tableName = tblDemo.name ∧
        c2.tableFamily = tblDemo.family ∧
        ch = ⟨syncBaseChainTag c2, some c2, some (newRules tblDemo c2)⟩) :=
  sync_infers_base_tag tblDemo (fun _ => none) [] kcPre [] rfl rfl rfl

/-! ## C1, C2, C8: the L3 compiler -/

theorem ipTo4_some_length (ip : IPBytes) (h : (ipTo4 ip).isSome = true) :
    ∃ k, ipTo4 ip = some k ∧ k.length = 4 := by
  unfold ipTo4 at h ⊢
  split_ifs at h ⊢ with h1 h2
  · exact ⟨ip, rfl, h1⟩
  · refine ⟨ip.drop 12, rfl, ?_⟩
    rw [List.length_drop, h2.1]
  · simp at h

theorem ipTo16_some_length (ip : IPBytes) (h : (ipTo16 ip).isSome = true) :
    ∃ k, ipTo16 ip = some k ∧ k.length = 16 := by
  unfold ipTo16 at h ⊢
  split_ifs at h ⊢ with h1 h2
  · refine ⟨v4MappedFront ++ ip, rfl, ?_⟩
    rw [List.length_append, h1]
    rfl
  · exact ⟨ip, rfl, h2⟩
  · simp at h

/-- C1: an address list with exactly one entry compiles to a direct inline
comparison and no auxiliary set elements; a list with at least two entries
compiles under IPv4 (IPv6) to exactly one set element per entry, the keys
being the addresses normalized through To4 (To16), that is to 4 (16) bytes for
addresses representable in the family. -/
theorem processAddrList_single_inline_multi_set :
    (∀ (l3proto offset : Nat) (a : IPAddr) (excl : Bool) (set : NFSet),
      processAddrList l3proto offset [a] excl set =
        .ok (⟨[.cmpSingleIP l3proto offset a excl]⟩, [])) ∧
    (∀ (offset : Nat) (list : List IPAddr) (excl : Bool) (set : NFSet),
      2 ≤ list.length →
      processAddrList tableFamilyIPv4 offset list excl set =
        .ok (⟨[.lookupSet set.keyType offset excl]⟩,
          list.map (fun a => ⟨ipTo4 a.ip⟩)) ∧
      (list.map (fun a : IPAddr => (⟨ipTo4 a.ip⟩ : SetElement))).length =
        list.length ∧
      ((∀ a, a ∈ list → (ipTo4 a.ip).isSome = true) →
        ∀ el, el ∈ list.map (fun a : IPAddr => (⟨ipTo4 a.ip⟩ : SetElement)) →
          ∃ k, el.key = some k ∧ k.length = 4)) ∧
    (∀ (offset : Nat) (list : List IPAddr) (excl : Bool) (set : NFSet),
      2 ≤ list.length →
      processAddrList tableFamilyIPv6 offset list excl set =
        .ok (⟨[.lookupSet set.keyType offset excl]⟩,
          list.map (fun a => ⟨ipTo16 a.ip⟩)) ∧
      (list.map (fun a : IPAddr => (⟨ipTo16 a.ip⟩ : SetElement))).length =
        list.length ∧
      ((∀ a, a ∈ list → (ipTo16 a.ip).isSome = true) →
        ∀ el, el ∈ list.map (fun a : IPAddr => (⟨ipTo16 a.ip⟩ : SetElement)) →
          ∃ k, el.key = some k ∧ k.length = 16)) := by
  refine ⟨?_, ?_, ?_⟩
  · intro l3proto offset a excl set
    simp [processAddrList, getExprForSingleIP]
  · intro offset list excl set hlen
    match list with
    | [] => simp at hlen
    | [a] => simp at hlen
    | a :: b :: t =>
      refine ⟨?_, by simp, ?_⟩
      · simp [processAddrList, getExprForListIP]
      · intro hval el hel
        rw [List.mem_map] at hel
        obtain ⟨x, hx, hxel⟩ := hel
        obtain ⟨k, hk, hk4⟩ := ipTo4_some_length x.ip (hval x hx)
        exact ⟨k, by rw [← hxel, hk], hk4⟩
  · intro offset list excl set hlen
    match list with
    | [] => simp at hlen
    | [a] => simp at hlen
    | a :: b :: t =>
      refine ⟨?_, by simp, ?_⟩
      · simp [processAddrList, getExprForListIP, tableFamilyIPv4,
          tableFamilyIPv6]
      · intro hval el hel
        rw [List.mem_map] at hel
        obtain ⟨x, hx, hxel⟩ := hel
        obtain ⟨k, hk, hk16⟩ := ipTo16_some_length x.ip (hval x hx)
        exact ⟨k, by rw [← hxel, hk], hk16⟩

/-- A demo IPv4 address. -/
def addr4A : IPAddr := ⟨[1, 2, 3, 4], false, none⟩

/-- A second demo IPv4 address. -/
def addr4B : IPAddr := ⟨[2, 3, 4, 5], false, none⟩

/-- A demo IPv6 address. -/
def addr6A : IPAddr :=
  ⟨[32, 1, 0, 1, 0, 0, 0, 0, 0, 0, 0, 0, 0, 0, 0, 2], false, none⟩

/-- Witness for C1: one concrete single-entry list and one concrete two-entry
list under IPv4. -/
theorem processAddrList_single_inline_multi_set_witness :
    processAddrList tableFamilyIPv4 12 [addr4A] false ⟨.invalid⟩ =
      .ok (⟨[.cmpSingleIP tableFamilyIPv4 12 addr4A false]⟩, []) ∧
    processAddrList tableFamilyIPv4 16 [addr4A, addr4B] false ⟨.invalid⟩ =
      .ok (⟨[.lookupSet SetDatatype.invalid 16 false]⟩,
        [addr4A, addr4B].map (fun a => ⟨ipTo4 a.ip⟩)) ∧
    (∀ el,
      el ∈ [addr4A, addr4B].map (fun a : IPAddr => (⟨ipTo4 a.ip⟩ : SetElement)) →
      ∃ k, el.key = some k ∧ k.length = 4) := by
  have h := processAddrList_single_inline_multi_set
  have h2 := h.2.1 16 [addr4A, addr4B] false ⟨.invalid⟩ (by decide)
  exact ⟨h.1 tableFamilyIPv4 12 addr4A false ⟨.invalid⟩, h2.1,
    h2.2.2 (by decide)⟩

/-- The header offset an L3 match expression reads at. -/
def exprOffset : L3Expr → Option Nat
  | .cmpSingleIP _ off _ _ => some off
  | .lookupSet _ off _ => some off
  | .cmpRange _ off _ _ _ => some off
  | .cmpVersion _ _ => none

/-- The offsets used by the expressions of a compiled L3 result. -/
def l3Offsets (res : Except String (NFRule × List SetElement × NFSet)) :
    List (Option Nat) :=
  match res with
  | .error _ => []
  | .ok (r, _, _) => r.exprs.map exprOffset

theorem processAddrList_offset (l3proto offset : Nat) (list : List IPAddr)
    (excl : Bool) (set : NFSet) (h : list.length ≠ 0) :
    ∃ r els, processAddrList l3proto offset list excl set = .ok (r, els) ∧
      r.exprs.map exprOffset = [some offset] := by
  match list with
  | [] => simp at h
  | [a] =>
    refine ⟨⟨[.cmpSingleIP l3proto offset a excl]⟩, [], ?_, by simp [exprOffset]⟩
    simp [processAddrList, getExprForSingleIP]
  | a :: b :: t =>
    by_cases h1 : l3proto = tableFamilyIPv4
    · refine ⟨⟨[.lookupSet set.keyType offset excl]⟩,
        (a :: b :: t).map (fun x => ⟨ipTo4 x.ip⟩), ?_, by simp [exprOffset]⟩
      simp [processAddrList, h1, getExprForListIP]
    · by_cases h2 : l3proto = tableFamilyIPv6
      · refine ⟨⟨[.lookupSet set.keyType offset excl]⟩,
          (a :: b :: t).map (fun x => ⟨ipTo16 x.ip⟩), ?_, by simp [exprOffset]⟩
        have hne : tableFamilyIPv6 ≠ tableFamilyIPv4 := by decide
        simp [processAddrList, h1, h2, hne, getExprForListIP]
      · refine ⟨⟨[.lookupSet set.keyType offset excl]⟩,
          (a :: b :: t).map (fun _ => ⟨none⟩), ?_, by simp [exprOffset]⟩
        simp [processAddrList, h1, h2, getExprForListIP]

/-- Counterexample to C2: the IPv6 source offset produced by createL3 is 8 and
the IPv4 source offset is 12, so IPv6 does not use a larger offset than IPv4
for the source field. -/
theorem createL3_offset_cex :
    l3Offsets (createL3 tableFamilyIPv6
      ⟨some ⟨[addr6A], none, none⟩, none, none, none⟩ false ⟨.invalid⟩) =
      [some 8] ∧
    l3Offsets (createL3 tableFamilyIPv4
      ⟨some ⟨[addr4A], none, none⟩, none, none, none⟩ false ⟨.invalid⟩) =
      [some 12] ∧
    ¬ (8 : Nat) > 12 := by
  exact ⟨rfl, rfl, by decide⟩

/-- C2 amended: with Version unset, the offset of the compiled address match
is a function of family and direction alone — IPv4 source 12, IPv4
destination 16, IPv6 source 8, IPv6 destination 24; within each family source
and destination differ, the IPv6 offsets differ from the IPv4 ones, the IPv6
destination offset is larger than the IPv4 one (24 > 16) while the IPv6
source offset is smaller than the IPv4 one (8 < 12). -/
theorem createL3_offsets (spec : IPAddrSpec) (p : Option Nat) (excl : Bool)
    (set : NFSet) (hlist : spec.list.length ≠ 0) :
    l3Offsets (createL3 tableFamilyIPv4 ⟨some spec, none, none, p⟩ excl set) =
      [some 12] ∧
    l3Offsets (createL3 tableFamilyIPv4 ⟨none, some spec, none, p⟩ excl set) =
      [some 16] ∧
    l3Offsets (createL3 tableFamilyIPv6 ⟨some spec, none, none, p⟩ excl set) =
      [some 8] ∧
    l3Offsets (createL3 tableFamilyIPv6 ⟨none, some spec, none, p⟩ excl set) =
      [some 24] ∧
    ((12 : Nat) ≠ 16 ∧ (8 : Nat) ≠ 24 ∧ (8 : Nat) ≠ 12 ∧ (24 : Nat) ≠ 16 ∧
      (24 : Nat) > 16 ∧ (8 : Nat) < 12) := by
  refine ⟨?_, ?_, ?_, ?_, by decide⟩
  · obtain ⟨r, els, hok, hoff⟩ := processAddrList_offset tableFamilyIPv4 12
      spec.list excl { set with keyType := .ipAddr } hlist
    simp [createL3, hlist, hok, l3Offsets, hoff]
  · obtain ⟨r, els, hok, hoff⟩ := processAddrList_offset tableFamilyIPv4 16
      spec.list excl { set with keyType := .ipAddr } hlist
    simp [createL3, hlist, hok, l3Offsets, hoff]
  · obtain ⟨r, els, hok, hoff⟩ := processAddrList_offset tableFamilyIPv6 8
      spec.list excl { set with keyType := .ip6Addr } hlist
    have hne : tableFamilyIPv6 ≠ tableFamilyIPv4 := by decide
    simp [createL3, hne, hlist, hok, l3Offsets, hoff]
  · obtain ⟨r, els, hok, hoff⟩ := processAddrList_offset tableFamilyIPv6 24
      spec.list excl { set with keyType := .ip6Addr } hlist
    have hne : tableFamilyIPv6 ≠ tableFamilyIPv4 := by decide
    simp [createL3, hne, hlist, hok, l3Offsets, hoff]

/-- Witness for the amended C2 at a concrete one-address specification. -/
theorem createL3_offsets_witness :
    l3Offsets (createL3 tableFamilyIPv4
      ⟨some ⟨[addr4A], none, none⟩, none, none, none⟩ false ⟨.invalid⟩) =
      [some 12] ∧
    l3Offsets (createL3 tableFamilyIPv4
      ⟨none, some ⟨[addr4A], none, none⟩, none, none⟩ false ⟨.invalid⟩) =
      [some 16] ∧
    l3Offsets (createL3 tableFamilyIPv6
      ⟨some ⟨[addr4A], none, none⟩, none, none, none⟩ false ⟨.invalid⟩) =
      [some 8] ∧
    l3Offsets (createL3 tableFamilyIPv6
      ⟨none, some ⟨[addr4A], none, none⟩, none, none⟩ false ⟨.invalid⟩) =
      [some 24] := by
  have h := createL3_offsets ⟨[addr4A], none, none⟩ none false ⟨.invalid⟩
    (by decide)
  exact ⟨h.1, h.2.1, h.2.2.1, h.2.2.2.1⟩

/-- C8: when Version is nil and both Src and Dst are populated, createL3
produces exactly the same compiled output (expressions, set elements and set
key type) as for the same rule with Src nil: the Dst specification and the
destination offset win and the Src selection is silently discarded. -/
theorem createL3_dst_overrides_src (l3proto : Nat) (s d : IPAddrSpec)
    (p : Option Nat) (excl : Bool) (set : NFSet) :
    createL3 l3proto ⟨some s, some d, none, p⟩ excl set =
      createL3 l3proto ⟨none, some d, none, p⟩ excl set := by
  obtain ⟨kt⟩ := set
  by_cases h4 : l3proto = tableFamilyIPv4
  · subst h4
    simp [createL3]
  · by_cases h6 : l3proto = tableFamilyIPv6
    · subst h6
      simp [createL3, tableFamilyIPv4, tableFamilyIPv6]
    · simp [createL3, h4, h6]

/-! ## C9: CreateImm and commit failure -/

theorem create_error_unchanged (tbl : NFTable) (s : ChainStore) (name : String)
    (attrs : Option ChainAttributes) (e : String) (s2 : ChainStore)
    (h : create tbl s name attrs = (some e, s2)) : s2 = s := by
  unfold create at h
  match hlk : storeLookup s name with
  | some ch =>
    rw [hlk] at h
    by_cases heq : isEqualChain ch attrs = true
    · simp [heq] at h
    · simp [heq] at h
      exact h.2.symm
  | none =>
    rw [hlk] at h
    match attrs with
    | some a =>
      by_cases hty : a.type = ""
      · simp [hty] at h
        exact h.2.symm
      · simp [hty] at h
    | none => simp at h

/-- Counterexample to C9: a CreateImm whose create step succeeds and whose
commit fails returns the commit error while the newly inserted local entry is
still in the store — the local store does describe an object the kernel never
received. -/
theorem createImm_divergence_cex :
    (CreateImm tblDemo [] "one" none (some ("commit failed"))).1 =
      some ("commit failed") ∧
    storeLookup (CreateImm tblDemo [] "one" none (some ("commit failed"))).2
      "one" = some (createdRegular tblDemo "one") :=
  ⟨rfl, rfl⟩

/-- C9 amended: a CreateImm that fails in the create step leaves the store
untouched, but a CreateImm whose create step succeeds and whose commit fails
returns the commit error with the newly inserted entry still present in the
local store: local state may be ahead of kernel state after a failed
CreateImm. -/
theorem createImm_commit_failure_keeps_entry (tbl : NFTable) (s : ChainStore)
    (name : String) (attrs : Option ChainAttributes) :
    (∀ e s2, create tbl s name attrs = (some e, s2) →
      ∀ fe, CreateImm tbl s name attrs fe = (some e, s)) ∧
    (∀ s2, create tbl s name attrs = (none, s2) → ∀ m,
      CreateImm tbl s name attrs (some m) = (some m, s2)) ∧
    (storeLookup s name = none →
      ∀ s2, create tbl s name attrs = (none, s2) →
        (storeLookup s2 name).isSome = true) := by
  refine ⟨?_, ?_, ?_⟩
  · intro e s2 h fe
    have hs := create_error_unchanged tbl s name attrs e s2 h
    have hres : CreateImm tbl s name attrs fe = (some e, s2) := by
      simp [CreateImm, h]
    rw [hres, hs]
  · intro s2 h m
    simp [CreateImm, h]
  · intro habs s2 h
    unfold create at h
    rw [habs] at h
    match attrs with
    | some a =>
      by_cases hty : a.type = ""
      · simp [hty] at h
      · simp [hty] at h
        rw [← h, storeLookup_storeSet_self]
        rfl
    | none =>
      simp at h
      rw [← h, storeLookup_storeSet_self]
      rfl

/-- Witness for the amended C9 at a concrete failing commit. -/
theorem createImm_commit_failure_keeps_entry_witness :
    CreateImm tblDemo [] "one" none (some ("boom")) =
      (some ("boom"), storeSet [] "one" (createdRegular tblDemo "one")) ∧
    (storeLookup (storeSet ([] : ChainStore) "one"
      (createdRegular tblDemo "one")) "one").isSome = true := by
  have h := createImm_commit_failure_keeps_entry tblDemo [] "one" none
  exact ⟨h.2.1 (storeSet [] "one" (createdRegular tblDemo "one")) rfl ("boom"),
    h.2.2 rfl (storeSet [] "one" (createdRegular tblDemo "one")) rfl⟩

/-! ## C10: Exist swallows transport and sync failures -/

theorem existScan_false_of_syncFail (tbl : NFTable) (s : ChainStore)
    (kchains : List NFTChain) (rulesSync : String → Option String)
    (name : String) (er : String)
    (hsync : (Sync tbl s (.ok kchains) rulesSync).1 = some er) :
    ∀ l, existScan tbl s kchains rulesSync name l = false := by
  rcases hP : Sync tbl s (.ok kchains) rulesSync with ⟨e1, st2⟩
  rw [hP] at hsync
  simp at hsync
  subst hsync
  intro l
  induction l with
  | nil => rfl
  | cons c rest ih =>
    by_cases hn : c.name = name
    · by_cases hm : tbl.name = c.tableName ∧ tbl.family = c.tableFamily
      · simp [existScan, hn, hm, hP]
      · simp only [existScan, hn, if_true, hm, if_false]
        exact ih
    · simp only [existScan, hn, if_false]
      exact ih

/-- C10: Exist never surfaces a transport failure: a name in the local store
reads as present with no dependence on the kernel at all; for a missing name a
kernel-listing error reads as absent, and so does a failing Sync triggered by
a listing that contains the chain. -/
theorem exist_swallows_errors (tbl : NFTable) (s : ChainStore) (name : String) :
    (∀ v, storeLookup s name = some v →
      ∀ listing rulesSync, Exist tbl s listing rulesSync name = true) ∧
    (storeLookup s name = none →
      ∀ e rulesSync, Exist tbl s (.error e) rulesSync name = false) ∧
    (storeLookup s name = none →
      ∀ kchains rulesSync er,
        (Sync tbl s (.ok kchains) rulesSync).1 = some er →
        Exist tbl s (.ok kchains) rulesSync name = false) := by
  refine ⟨?_, ?_, ?_⟩
  · intro v h listing rulesSync
    simp [Exist, h]
  · intro h e rulesSync
    simp [Exist, h]
  · intro h kchains rulesSync er hsync
    have hscan :=
      existScan_false_of_syncFail tbl s kchains rulesSync name er hsync kchains
    simp [Exist, h, hscan]

/-- A child rule-store sync that always fails. -/
def rsyncFail : String → Option String := fun _ => some ("child sync failed")

/-- Witness for C10 at concrete stores, listings and sync outcomes. -/
theorem exist_swallows_errors_witness :
    Exist tblDemo storeDemo (Except.error ("netlink down")) (fun _ => none)
      "ch1" = true ∧
    Exist tblDemo [] (Except.error ("netlink down")) (fun _ => none) "A" =
      false ∧
    Exist tblDemo [] (.ok [kcA]) rsyncFail "A" = false := by
  refine ⟨(exist_swallows_errors tblDemo storeDemo "ch1").1 chDemo rfl
    (Except.error ("netlink down")) (fun _ => none), ?_, ?_⟩
  · exact (exist_swallows_errors tblDemo [] "A").2.1 rfl ("netlink down")
      (fun _ => none)
  · exact (exist_swallows_errors tblDemo [] "A").2.2 rfl [kcA] rsyncFail
      ("child sync failed") rfl

end Nftableslib
